import Mathlib

/-!
# Verification of the procurement-PDF section extractor

A shallow embedding of `src/backend/app/step1_parse/pdfParser.py` (the core
specified in `spec.md`): the span/block document model, the largest-gap
heading-size classifier `infer_heading_sizes`, the heading-candidate
detector, the reading-order sequencer and the section segmenter of
`extract_everything`.  Font sizes and vertical coordinates are modelled as
rationals; Python strings are modelled as Lean `String`s restricted to the
ASCII casing semantics of `Char.isUpper`/`Char.isLower`.
-/

namespace PdfParser

/-! ## Python string primitives

Models of the Python `str` methods used by the parser: `strip`, `split`,
`isupper`, `istitle`, and the regex `^\d+(?:[\.\d]+)?\s+.*` used for
numbered headings.  Whitespace is the ASCII whitespace class of Python's
`str.strip`/`str.split` and of `\s`.
-/

/-- ASCII whitespace as recognised by Python `str.strip`, `str.split` and
the regex class `\s`. -/
def isPySpace (c : Char) : Bool :=
  c = ' ' || c = '\t' || c = '\n' || c = '\r' || c = '\x0b' || c = '\x0c'

/-- A character that is cased in the ASCII fragment (`str.isupper` /
`str.istitle` look only at cased characters). -/
def isCased (c : Char) : Bool := c.isUpper || c.isLower

/-- Python `str.strip()` on the character list: drop leading and trailing
whitespace. -/
def pyStripL (l : List Char) : List Char :=
  ((l.dropWhile isPySpace).reverse.dropWhile isPySpace).reverse

/-- Python `str.strip()`. -/
def pyStrip (s : String) : String := String.mk (pyStripL s.toList)

/-- Helper for `pyWords`: accumulate the current (reversed) word while
scanning. -/
def pyWordsAux (cur : List Char) : List Char → List (List Char)
  | [] => if cur.isEmpty then [] else [cur.reverse]
  | c :: cs =>
    if isPySpace c then
      if cur.isEmpty then pyWordsAux [] cs else cur.reverse :: pyWordsAux [] cs
    else pyWordsAux (c :: cur) cs

/-- Python `str.split()` with no separator: the maximal runs of
non-whitespace characters. -/
def pyWords (l : List Char) : List (List Char) := pyWordsAux [] l

/-- Python `str.isupper()`: at least one cased character, and no cased
character is lowercase. -/
def pyIsUpper (l : List Char) : Bool :=
  l.any isCased && l.all (fun c => !c.isLower)

/-- Helper for `pyIsTitle`, tracking whether the previous character was
cased and whether any cased character has been seen. -/
def pyIsTitleAux (prevCased : Bool) (cased : Bool) : List Char → Bool
  | [] => cased
  | c :: cs =>
    if c.isUpper then
      if prevCased then false else pyIsTitleAux true true cs
    else if c.isLower then
      if prevCased then pyIsTitleAux true true cs else false
    else pyIsTitleAux false cased cs

/-- Python `str.istitle()`: uppercase characters follow only uncased
characters, lowercase characters follow only cased ones, and at least one
cased character occurs. -/
def pyIsTitle (l : List Char) : Bool := pyIsTitleAux false false l

/-- The compiled regex `^\d+(?:[\.\d]+)?\s+.*` applied with `re.match`
(prefix match).  Since `[\.\d]` and `\s` are disjoint character classes,
the pattern matches exactly when the text starts with a digit and the
maximal run of digit-or-period characters is followed by a whitespace
character. -/
def numHeadingMatch (l : List Char) : Bool :=
  match l with
  | [] => false
  | c :: _ =>
    c.isDigit &&
      match l.dropWhile (fun x => x.isDigit || x = '.') with
      | [] => false
      | r :: _ => isPySpace r

/-! ## Document model

The input contract of §6: a document is a list of pages; a page yields
blocks; a block has a type tag and lines; a line has spans; a span has
text, a font size, and a top-edge vertical coordinate (the `y0` of its
bounding box). -/

structure Span where
  text : String
  size : ℚ
  y0 : ℚ
deriving DecidableEq, Repr

structure Line where
  spans : List Span
deriving DecidableEq, Repr

structure Block where
  btype : Nat
  lines : List Line
deriving DecidableEq, Repr

structure Page where
  blocks : List Block
deriving DecidableEq, Repr

/-- A document: the pages in order (page numbers are 1-based positions). -/
abbrev Doc := List Page

/-- Python `max(xs, key=f)` on a nonempty list `x :: xs`: the fold keeps
the current best unless a strictly larger key appears, so the first
maximum wins ties. -/
def pyMaxBy {α : Type} (f : α → ℚ) (x : α) (xs : List α) : α :=
  xs.foldl (fun b y => if f b < f y then y else b) x

/-- All spans of a block, flattened across its lines (the comprehension
`[s for line in block["lines"] for s in line["spans"]]`). -/
def blockSpans (b : Block) : List Span := (b.lines.map Line.spans).flatten

/-- `"".join(s["text"] for s in spans)`: the concatenated span text of a
block. -/
def blockText (b : Block) : String :=
  String.join ((blockSpans b).map Span.text)

/-- `min(s["bbox"][1] for s in spans)`: the smallest span `y0` of a block
(meaningful only when the block has a span; `0` otherwise). -/
def blockY0 (b : Block) : ℚ :=
  match blockSpans b with
  | [] => 0
  | s :: rest => rest.foldl (fun m y => min m y.y0) s.y0

/-- `max(spans, key=lambda s: s["size"])["size"]` over the flattened spans
of a block (meaningful only when the block has a span; `0` otherwise). -/
def blockMaxSize (b : Block) : ℚ :=
  match blockSpans b with
  | [] => 0
  | s :: rest => (pyMaxBy Span.size s rest).size

/-- The collector's keep condition: `block.get("type") != 0 or not
block.get("lines")` skips the block. -/
def keepBlock (b : Block) : Bool := b.btype == 0 && !b.lines.isEmpty

/-- `max(spans, key=lambda s: s["size"])["size"]` for one line (used by
the font-size collector; meaningful only when the line has a span). -/
def lineMaxSize (l : Line) : ℚ :=
  match l.spans with
  | [] => 0
  | s :: rest => (pyMaxBy Span.size s rest).size

/-! ## Heading Size Classifier (`infer_heading_sizes`) -/

/-- Descending order on rationals, used for `sorted(..., reverse=True)`. -/
def descLe (a b : ℚ) : Prop := b ≤ a

instance : DecidableRel descLe := fun a b => inferInstanceAs (Decidable (b ≤ a))

instance : IsTotal ℚ descLe := ⟨fun a b => (le_total b a).imp id id⟩

instance : IsTrans ℚ descLe := ⟨fun _ _ _ h1 h2 => le_trans h2 h1⟩

/-- `sorted(set(xs), reverse=True)`: the distinct values, sorted
descending.  (Python's stable sort of a list of distinct values and
`insertionSort` agree: both are sorted and a permutation of the input, and
on distinct values the sorted permutation is unique.) -/
def uniqueDesc (l : List ℚ) : List ℚ := List.insertionSort descLe l.dedup

/-- Rational subtraction `a - b`, written out through `Rat.normalize` so
that it evaluates by kernel reduction (`Rat.sub` itself is irreducible);
`qsub_eq_sub` proves it equal to `a - b`. -/
def qsub (a b : ℚ) : ℚ :=
  Rat.normalize (a.num * b.den - b.num * a.den) (a.den * b.den)
    (Nat.mul_ne_zero a.den_nz b.den_nz)

theorem qsub_eq_sub (a b : ℚ) : qsub a b = a - b := by
  rw [Rat.sub_def]; rfl

/-- The adjacent differences `u[i] - u[i+1]` of a sorted-descending
list. -/
def gaps (u : List ℚ) : List ℚ := List.zipWith qsub u u.tail

/-- `[(unique_sizes[i] - unique_sizes[i+1], i) for i in range(len-1)]`. -/
def diffs (u : List ℚ) : List (ℚ × Nat) :=
  (gaps u).enum.map (fun p => (p.2, p.1))

/-- `infer_heading_sizes`: identify heading font sizes by the largest gap
in the sorted set of unique font sizes; everything above this gap is the
heading-size set.  Fewer than two distinct sizes: all sizes are possible
headings.  `max(diffs, key=...)` resolves ties in favour of the first
(largest-size) gap. -/
def infer_heading_sizes (font_sizes : List ℚ) : Finset ℚ :=
  let unique_sizes := uniqueDesc font_sizes
  if unique_sizes.length < 2 then unique_sizes.toFinset
  else
    match diffs unique_sizes with
    | [] => unique_sizes.toFinset
    | x :: xs => (unique_sizes.take ((pyMaxBy Prod.fst x xs).2 + 1)).toFinset

/-- Step 2 of `extract_everything`: the inferred heading sizes, unioned
with the top `heading_font_count` distinct sizes when that optional count
is truthy (`if heading_font_count:` is false for `None` and for `0`). -/
def headingSizesWithFloor (font_sizes : List ℚ) (heading_font_count : Option Nat) : Finset ℚ :=
  let hs := infer_heading_sizes font_sizes
  match heading_font_count with
  | none => hs
  | some k => if k = 0 then hs else hs ∪ ((uniqueDesc font_sizes).take k).toFinset

/-! ## Span Collector / Font Size Profiler (step 1) -/

/-- The per-line maximum span sizes of one kept block (lines without spans
contribute nothing). -/
def blockLineSizes (b : Block) : List ℚ :=
  b.lines.filterMap (fun l => if l.spans.isEmpty then none else some (lineMaxSize l))

/-- The `font_sizes` list built in step 1 of `extract_everything`: for
every page, for every kept block, for every line with at least one span,
the maximum span size of that line. -/
def collectFontSizes (d : Doc) : List ℚ :=
  (d.map (fun p => ((p.blocks.filter keepBlock).map blockLineSizes).flatten)).flatten

/-- The `pages_blocks` list: `(page_num, blocks)` with 1-based page
numbers, where `blocks` are the kept (type-0, nonempty-lines) blocks of
the page. -/
def pagesBlocks (d : Doc) : List (Nat × List Block) :=
  d.enum.map (fun q => (q.1 + 1, q.2.blocks.filter keepBlock))

/-! ## Heading Candidate Detector (step 3) -/

/-- The boolean heading heuristic of step 3 (`is_heading`), applied to an
already-stripped nonempty text and the block's dominant span size. -/
def is_heading (heading_sizes : Finset ℚ) (size : ℚ) (text : String) : Bool :=
  decide (size ∈ heading_sizes) || numHeadingMatch text.toList || pyIsUpper text.toList ||
    (decide ((pyWords text.toList).length ≤ 5) && pyIsTitle text.toList)

/-- A heading candidate: `{"page": ..., "y0": ..., "text": ...}`. -/
structure HC where
  page : Nat
  y0 : ℚ
  text : String
deriving DecidableEq, Repr

/-- The step-3 body for one block: skip blocks without spans, strip the
concatenated span text, skip empty text, then apply the heuristic; the
candidate's position is the smallest span `y0`. -/
def blockHeading (heading_sizes : Finset ℚ) (page_num : Nat) (b : Block) : Option HC :=
  if (blockSpans b).isEmpty then none
  else
    let text := pyStrip (blockText b)
    if text = "" then none
    else if is_heading heading_sizes (blockMaxSize b) text then
      some ⟨page_num, blockY0 b, text⟩
    else none

/-- All heading candidates of the document, in collection order. -/
def headingsOf (d : Doc) (heading_font_count : Option Nat) : List HC :=
  let heading_sizes := headingSizesWithFloor (collectFontSizes d) heading_font_count
  ((pagesBlocks d).map (fun pb => pb.2.filterMap (blockHeading heading_sizes pb.1))).flatten

/-! ## Reading-Order Sequencer -/

/-- Lexicographic `≤` on `(page, y0)` keys: the sort key of both
`headings.sort` and `flat_blocks.sort`. -/
def lexLe (a b : Nat × ℚ) : Prop := a.1 < b.1 ∨ (a.1 = b.1 ∧ a.2 ≤ b.2)

/-- Lexicographic `<` on `(page, y0)` keys. -/
def lexLt (a b : Nat × ℚ) : Prop := a.1 < b.1 ∨ (a.1 = b.1 ∧ a.2 < b.2)

instance : DecidableRel lexLe := fun a b =>
  inferInstanceAs (Decidable (a.1 < b.1 ∨ (a.1 = b.1 ∧ a.2 ≤ b.2)))

instance : DecidableRel lexLt := fun a b =>
  inferInstanceAs (Decidable (a.1 < b.1 ∨ (a.1 = b.1 ∧ a.2 < b.2)))

/-- The `(page, y0)` sort key of a heading candidate. -/
def hcKey (h : HC) : Nat × ℚ := (h.page, h.y0)

/-- `headings.sort(key=lambda h: (h["page"], h["y0"]))` comparator. -/
def hcLe (a b : HC) : Prop := lexLe (hcKey a) (hcKey b)

instance : DecidableRel hcLe := fun a b =>
  inferInstanceAs (Decidable (lexLe (hcKey a) (hcKey b)))

/-- The heading candidates sorted into document order (Python's stable
sort, modelled by the stable `insertionSort`). -/
def sortedHeadings (d : Doc) (heading_font_count : Option Nat) : List HC :=
  List.insertionSort hcLe (headingsOf d heading_font_count)

/-- A flattened block entry `(page_num, block, y0)` of step 4. -/
abbrev FB := Nat × Block × ℚ

/-- The `(page, y0)` sort key of a flattened block entry. -/
def fbKey (x : FB) : Nat × ℚ := (x.1, x.2.2)

/-- `flat_blocks.sort(key=lambda x: (x[0], x[2]))` comparator. -/
def fbLe (x y : FB) : Prop := lexLe (fbKey x) (fbKey y)

instance : DecidableRel fbLe := fun a b =>
  inferInstanceAs (Decidable (lexLe (fbKey a) (fbKey b)))

/-- Step 4: all blocks with at least one span, flattened in collection
order with their page number and smallest span `y0`. -/
def flatBlocksRaw (d : Doc) : List FB :=
  ((pagesBlocks d).map (fun pb => pb.2.filterMap (fun b =>
    if (blockSpans b).isEmpty then none else some ((pb.1, b, blockY0 b) : FB)))).flatten

/-- The flattened blocks sorted into reading order. -/
def sortedFlat (d : Doc) : List FB :=
  List.insertionSort fbLe (flatBlocksRaw d)

/-! ## Section Segmenter (step 5) -/

/-- The membership test of step 5: `(pg > start_pg or (pg == start_pg and
y0 >= start_y)) and (pg < end_pg or (pg == end_pg and y0 < end_y))`, where
an absent end bound models `(float("inf"), float("inf"))` (every page
number and coordinate is below it). -/
def memberCond (s : Nat × ℚ) (e : Option (Nat × ℚ)) (p : Nat × ℚ) : Bool :=
  (decide (s.1 < p.1) || (decide (p.1 = s.1) && decide (s.2 ≤ p.2))) &&
    (match e with
     | none => true
     | some e' => decide (p.1 < e'.1) || (decide (p.1 = e'.1) && decide (p.2 < e'.2)))

/-- Block text as reconstructed in step 5, preserving line breaks: the
lines' span-concatenations joined by `"\n"`. -/
def renderBlock (b : Block) : String :=
  String.intercalate "\n" (b.lines.map (fun l => String.join (l.spans.map Span.text)))

/-- The `texts` list of one section: the reconstructed text of every
member block, in sorted flat order. -/
def sectionTexts (flat : List FB) (s : Nat × ℚ) (e : Option (Nat × ℚ)) : List String :=
  (flat.filter (fun x => memberCond s e (fbKey x))).map (fun x => renderBlock x.2.1)

/-- One output record `{"section": ..., "text": ...}` (the JSON key
`section` is named `title` here). -/
structure SectionOut where
  title : String
  text : String
deriving DecidableEq, Repr

/-- The overall output `{"content": [...]}`. -/
structure Result where
  content : List SectionOut
deriving DecidableEq, Repr

/-- `extract_everything`: the full pipeline from the document model to the
output sections. -/
def extract_everything (d : Doc) (heading_font_count : Option Nat) : Result :=
  let hds := sortedHeadings d heading_font_count
  let flat := sortedFlat d
  ⟨hds.enum.map (fun ih =>
    let e := (hds[ih.1 + 1]?).map hcKey
    ⟨ih.2.text, pyStrip (String.intercalate "\n" (sectionTexts flat (hcKey ih.2) e))⟩)⟩

/-- The member blocks of section `i` (empty when there is no heading
`i`): the sorted flat blocks satisfying the step-5 membership test for the
boundary `[start_i, start_of_heading i+1)`. -/
def sectionMembers (d : Doc) (heading_font_count : Option Nat) (i : Nat) : List FB :=
  match (sortedHeadings d heading_font_count)[i]? with
  | none => []
  | some h =>
    (sortedFlat d).filter (fun x => memberCond (hcKey h)
      (((sortedHeadings d heading_font_count)[i + 1]?).map hcKey) (fbKey x))

/-! ## Lexicographic order lemmas -/

theorem lexLe_refl (a : Nat × ℚ) : lexLe a a := Or.inr ⟨rfl, le_refl _⟩

theorem lexLe_trans {a b c : Nat × ℚ} (h1 : lexLe a b) (h2 : lexLe b c) : lexLe a c := by
  rcases h1 with h1 | ⟨h1, h1'⟩ <;> rcases h2 with h2 | ⟨h2, h2'⟩
  · exact Or.inl (Nat.lt_trans h1 h2)
  · exact Or.inl (h2 ▸ h1)
  · exact Or.inl (h1 ▸ h2)
  · exact Or.inr ⟨h1.trans h2, h1'.trans h2'⟩

theorem lexLt_of_lexLe_of_lexLt {a b c : Nat × ℚ} (h1 : lexLe a b) (h2 : lexLt b c) :
    lexLt a c := by
  rcases h1 with h1 | ⟨h1, h1'⟩ <;> rcases h2 with h2 | ⟨h2, h2'⟩
  · exact Or.inl (Nat.lt_trans h1 h2)
  · exact Or.inl (h2 ▸ h1)
  · exact Or.inl (h1 ▸ h2)
  · exact Or.inr ⟨h1.trans h2, lt_of_le_of_lt h1' h2'⟩

theorem lexLt_of_lexLt_of_lexLe {a b c : Nat × ℚ} (h1 : lexLt a b) (h2 : lexLe b c) :
    lexLt a c := by
  rcases h1 with h1 | ⟨h1, h1'⟩ <;> rcases h2 with h2 | ⟨h2, h2'⟩
  · exact Or.inl (Nat.lt_trans h1 h2)
  · exact Or.inl (h2 ▸ h1)
  · exact Or.inl (h1 ▸ h2)
  · exact Or.inr ⟨h1.trans h2, lt_of_lt_of_le h1' h2'⟩

theorem lexLe_total (a b : Nat × ℚ) : lexLe a b ∨ lexLe b a := by
  rcases Nat.lt_trichotomy a.1 b.1 with h | h | h
  · exact Or.inl (Or.inl h)
  · rcases le_total a.2 b.2 with h' | h'
    · exact Or.inl (Or.inr ⟨h, h'⟩)
    · exact Or.inr (Or.inr ⟨h.symm, h'⟩)
  · exact Or.inr (Or.inl h)

theorem lexLt_irrefl (a : Nat × ℚ) : ¬ lexLt a a := by
  rintro (h | ⟨-, h⟩)
  · exact Nat.lt_irrefl _ h
  · exact lt_irrefl _ h

theorem not_lexLe_iff_lexLt {a b : Nat × ℚ} : ¬ lexLe a b ↔ lexLt b a := by
  constructor
  · intro h
    rcases Nat.lt_trichotomy a.1 b.1 with h1 | h1 | h1
    · exact absurd (Or.inl h1) h
    · rcases lt_or_le b.2 a.2 with h2 | h2
      · exact Or.inr ⟨h1.symm, h2⟩
      · exact absurd (Or.inr ⟨h1, h2⟩) h
    · exact Or.inl h1
  · rintro (h | ⟨h, h'⟩) (h2 | ⟨h2, h2'⟩)
    · exact Nat.lt_asymm h h2
    · exact Nat.lt_irrefl _ (h2 ▸ h)
    · exact Nat.lt_irrefl _ (h ▸ h2)
    · exact absurd h2' (not_le_of_lt h')

theorem lexLe_antisymm {a b : Nat × ℚ} (h1 : lexLe a b) (h2 : lexLe b a) : a = b := by
  rcases h1 with h1 | ⟨h1, h1'⟩ <;> rcases h2 with h2 | ⟨h2, h2'⟩
  · exact absurd h2 (Nat.lt_asymm h1)
  · exact absurd h1 (h2 ▸ Nat.lt_irrefl _)
  · exact absurd h2 (h1 ▸ Nat.lt_irrefl _)
  · exact Prod.ext h1 (le_antisymm h1' h2')

theorem lexLt_of_lexLe_of_ne {a b : Nat × ℚ} (h1 : lexLe a b) (h2 : a ≠ b) : lexLt a b := by
  rcases h1 with h1 | ⟨h1, h1'⟩
  · exact Or.inl h1
  · exact Or.inr ⟨h1, lt_of_le_of_ne h1' (fun he => h2 (Prod.ext h1 he))⟩

theorem lexLe_of_lexLt {a b : Nat × ℚ} (h : lexLt a b) : lexLe a b := by
  rcases h with h | ⟨h, h'⟩
  · exact Or.inl h
  · exact Or.inr ⟨h, le_of_lt h'⟩

instance : IsTotal HC hcLe := ⟨fun _ _ => lexLe_total _ _⟩

instance : IsTrans HC hcLe := ⟨fun _ _ _ h1 h2 => lexLe_trans h1 h2⟩

instance : IsTotal FB fbLe := ⟨fun _ _ => lexLe_total _ _⟩

instance : IsTrans FB fbLe := ⟨fun _ _ _ h1 h2 => lexLe_trans h1 h2⟩

/-- The step-5 boolean membership test is exactly the lexicographic
condition `start ≤ p` together with `p < end` when an end bound exists. -/
theorem memberCond_iff (s : Nat × ℚ) (e : Option (Nat × ℚ)) (p : Nat × ℚ) :
    memberCond s e p = true ↔ (lexLe s p ∧ ∀ e', e = some e' → lexLt p e') := by
  cases e with
  | none =>
    simp only [memberCond, Bool.and_true, Bool.or_eq_true, Bool.and_eq_true, decide_eq_true_eq]
    constructor
    · rintro (h | ⟨h, h'⟩)
      · exact ⟨Or.inl h, by rintro e' ⟨⟩⟩
      · exact ⟨Or.inr ⟨h.symm, h'⟩, by rintro e' ⟨⟩⟩
    · rintro ⟨h | ⟨h, h'⟩, -⟩
      · exact Or.inl h
      · exact Or.inr ⟨h.symm, h'⟩
  | some e' =>
    simp only [memberCond, Bool.and_eq_true, Bool.or_eq_true, decide_eq_true_eq]
    constructor
    · rintro ⟨h1 | ⟨h1, h1'⟩, h2 | ⟨h2, h2'⟩⟩
      · exact ⟨Or.inl h1, by rintro x ⟨⟩; exact Or.inl h2⟩
      · exact ⟨Or.inl h1, by rintro x ⟨⟩; exact Or.inr ⟨h2, h2'⟩⟩
      · exact ⟨Or.inr ⟨h1.symm, h1'⟩, by rintro x ⟨⟩; exact Or.inl h2⟩
      · exact ⟨Or.inr ⟨h1.symm, h1'⟩, by rintro x ⟨⟩; exact Or.inr ⟨h2, h2'⟩⟩
    · rintro ⟨h1 | ⟨h1, h1'⟩, h2⟩ <;> rcases h2 e' rfl with h2 | ⟨h2, h2'⟩
      · exact ⟨Or.inl h1, Or.inl h2⟩
      · exact ⟨Or.inl h1, Or.inr ⟨h2, h2'⟩⟩
      · exact ⟨Or.inr ⟨h1.symm, h1'⟩, Or.inl h2⟩
      · exact ⟨Or.inr ⟨h1.symm, h1'⟩, Or.inr ⟨h2, h2'⟩⟩

/-! ## The first-maximum property of `pyMaxBy` -/

/-- Python's `max` with a key: the result occurs in the list, every key is
at most its key, and every element strictly before its occurrence has a
strictly smaller key (the first maximum wins). -/
theorem pyMaxBy_fst_spec (x : ℚ × Nat) (xs : List (ℚ × Nat)) :
    ∃ pre post, x :: xs = pre ++ pyMaxBy Prod.fst x xs :: post ∧
      (∀ y ∈ pre, y.1 < (pyMaxBy Prod.fst x xs).1) ∧
      ∀ y ∈ x :: xs, y.1 ≤ (pyMaxBy Prod.fst x xs).1 := by
  induction xs generalizing x with
  | nil =>
    exact ⟨[], [], rfl, by simp, by simp [pyMaxBy]⟩
  | cons y ys ih =>
    by_cases h : x.1 < y.1
    · have hfold : pyMaxBy Prod.fst x (y :: ys) = pyMaxBy Prod.fst y ys := by
        simp [pyMaxBy, h]
      obtain ⟨pre, post, hsplit, hpre, hmax⟩ := ih y
      rw [hfold]
      refine ⟨x :: pre, post, ?_, ?_, ?_⟩
      · rw [List.cons_append, ← hsplit]
      · intro z hz
        rcases List.mem_cons.1 hz with rfl | hz
        · exact lt_of_lt_of_le h (hmax y (List.mem_cons_self y ys))
        · exact hpre z hz
      · intro z hz
        rcases List.mem_cons.1 hz with rfl | hz
        · exact le_of_lt (lt_of_lt_of_le h (hmax y (List.mem_cons_self y ys)))
        · exact hmax z hz
    · have hfold : pyMaxBy Prod.fst x (y :: ys) = pyMaxBy Prod.fst x ys := by
        simp [pyMaxBy, h]
      obtain ⟨pre, post, hsplit, hpre, hmax⟩ := ih x
      rw [hfold]
      cases pre with
      | nil =>
        obtain ⟨hx, hys⟩ := List.cons.inj hsplit
        refine ⟨[], y :: ys, by rw [List.nil_append, ← hx], by simp, ?_⟩
        intro z hz
        rcases List.mem_cons.1 hz with rfl | hz
        · rw [← hx]
        · rcases List.mem_cons.1 hz with rfl | hz
          · exact le_trans (le_of_not_lt h) (by rw [← hx])
          · exact hmax z (List.mem_cons.2 (Or.inr hz))
      | cons p ps =>
        obtain ⟨hp, hys⟩ := List.cons.inj hsplit
        rw [List.append_eq] at hys
        refine ⟨x :: y :: ps, post, ?_, ?_, ?_⟩
        · rw [List.cons_append, List.cons_append, ← hys]
        · intro z hz
          have hxlt : x.1 < (pyMaxBy Prod.fst x ys).1 := by
            have := hpre p (List.mem_cons_self p ps)
            rw [← hp] at this
            exact this
          rcases List.mem_cons.1 hz with rfl | hz
          · exact hxlt
          · rcases List.mem_cons.1 hz with rfl | hz
            · exact lt_of_le_of_lt (le_of_not_lt h) hxlt
            · exact hpre z (List.mem_cons.2 (Or.inr hz))
        · intro z hz
          rcases List.mem_cons.1 hz with rfl | hz
          · exact hmax z (List.mem_cons_self z ys)
          · rcases List.mem_cons.1 hz with rfl | hz
            · exact le_trans (le_of_not_lt h) (hmax x (List.mem_cons_self x ys))
            · exact hmax z (List.mem_cons.2 (Or.inr (hys ▸ hz)))

/-! ## Characterisation of the knee detector (C1) -/

theorem length_gaps (u : List ℚ) : (gaps u).length = u.length - 1 := by
  simp [gaps, List.length_zipWith, List.length_tail]

theorem length_diffs (u : List ℚ) : (diffs u).length = (gaps u).length := by
  simp [diffs, List.enum_length]

theorem diffs_getElem (u : List ℚ) (j : Nat) (h : j < (gaps u).length) :
    (diffs u).getD j (0, 0) = ((gaps u).getD j 0, j) := by
  have h' : j < (diffs u).length := by rw [length_diffs]; exact h
  rw [List.getD_eq_getElem?_getD, List.getElem?_eq_getElem h',
    List.getD_eq_getElem?_getD, List.getElem?_eq_getElem h]
  simp only [Option.getD_some]
  simp only [diffs, List.getElem_map, List.getElem_enum]

theorem gaps_getD (u : List ℚ) (j : Nat) (h : j + 1 < u.length) :
    (gaps u).getD j 0 = u.getD j 0 - u.getD (j + 1) 0 := by
  have hg : j < (gaps u).length := by rw [length_gaps]; omega
  have h1 : j < u.length := by omega
  have ht : j < u.tail.length := by rw [List.length_tail]; omega
  rw [List.getD_eq_getElem?_getD, List.getElem?_eq_getElem hg,
    List.getD_eq_getElem?_getD, List.getElem?_eq_getElem h1,
    List.getD_eq_getElem?_getD, List.getElem?_eq_getElem h]
  simp only [Option.getD_some]
  show (gaps u).get ⟨j, hg⟩ = _
  simp only [gaps, List.get_eq_getElem, List.getElem_zipWith, List.getElem_tail]
  exact qsub_eq_sub _ _

theorem uniqueDesc_toFinset (l : List ℚ) : (uniqueDesc l).toFinset = l.toFinset := by
  apply Finset.ext
  intro a
  simp [uniqueDesc, List.mem_toFinset]

theorem uniqueDesc_sorted (l : List ℚ) : (uniqueDesc l).Sorted descLe :=
  List.sorted_insertionSort descLe l.dedup

theorem uniqueDesc_nodup (l : List ℚ) : (uniqueDesc l).Nodup :=
  (List.perm_insertionSort descLe l.dedup).nodup_iff.2 (List.nodup_dedup l)

theorem infer_heading_sizes_eq_of_diffs (fs : List ℚ) (x : ℚ × Nat) (xs : List (ℚ × Nat))
    (hlen : ¬ (uniqueDesc fs).length < 2) (hd : diffs (uniqueDesc fs) = x :: xs) :
    infer_heading_sizes fs =
      ((uniqueDesc fs).take ((pyMaxBy Prod.fst x xs).2 + 1)).toFinset := by
  unfold infer_heading_sizes
  rw [if_neg hlen, hd]

/-- **C1**: for a multiset with at least two distinct font sizes, the
classifier returns the distinct sizes sorted descending, taken from the
top through and including the size immediately above the largest adjacent
gap, gap ties resolved in favour of the earliest (largest-size) gap; with
fewer than two distinct values it returns all distinct sizes.  In
particular `{20, 18, 12, 11, 10}` yields `{20, 18}`, `{12}` yields `{12}`
and the empty multiset yields the empty set. -/
theorem infer_heading_sizes_correct (font_sizes : List ℚ) :
    ((uniqueDesc font_sizes).Sorted descLe ∧ (uniqueDesc font_sizes).Nodup ∧
      (uniqueDesc font_sizes).toFinset = font_sizes.toFinset) ∧
    ((uniqueDesc font_sizes).length < 2 →
      infer_heading_sizes font_sizes = font_sizes.toFinset) ∧
    (2 ≤ (uniqueDesc font_sizes).length →
      ∃ idx, idx + 1 < (uniqueDesc font_sizes).length ∧
        infer_heading_sizes font_sizes = ((uniqueDesc font_sizes).take (idx + 1)).toFinset ∧
        (∀ j, j + 1 < (uniqueDesc font_sizes).length →
          (uniqueDesc font_sizes).getD j 0 - (uniqueDesc font_sizes).getD (j + 1) 0 ≤
            (uniqueDesc font_sizes).getD idx 0 - (uniqueDesc font_sizes).getD (idx + 1) 0) ∧
        (∀ j, j < idx →
          (uniqueDesc font_sizes).getD j 0 - (uniqueDesc font_sizes).getD (j + 1) 0 <
            (uniqueDesc font_sizes).getD idx 0 - (uniqueDesc font_sizes).getD (idx + 1) 0)) ∧
    (infer_heading_sizes [20, 18, 12, 11, 10] = {20, 18} ∧
      infer_heading_sizes [12] = {12} ∧ infer_heading_sizes [] = ∅) := by
  refine ⟨⟨uniqueDesc_sorted _, uniqueDesc_nodup _, uniqueDesc_toFinset _⟩, ?_, ?_,
    by decide, by decide, by decide⟩
  · intro h
    unfold infer_heading_sizes
    rw [if_pos h, uniqueDesc_toFinset]
  · intro h2
    have hlt : ¬ (uniqueDesc font_sizes).length < 2 := by omega
    have hglen : 1 ≤ (gaps (uniqueDesc font_sizes)).length := by
      rw [length_gaps]; omega
    obtain ⟨x, xs, hxs⟩ : ∃ x xs, diffs (uniqueDesc font_sizes) = x :: xs := by
      cases hd : diffs (uniqueDesc font_sizes) with
      | nil =>
        exfalso
        have hld := length_diffs (uniqueDesc font_sizes)
        rw [hd] at hld
        simp only [List.length_nil] at hld
        omega
      | cons a l => exact ⟨a, l, rfl⟩
    obtain ⟨pre, post, hsplit, hpre, hmax⟩ := pyMaxBy_fst_spec x xs
    have hdiffs : diffs (uniqueDesc font_sizes) = pre ++ pyMaxBy Prod.fst x xs :: post :=
      hxs.trans hsplit
    have hdlen : (diffs (uniqueDesc font_sizes)).length = pre.length + (post.length + 1) := by
      rw [hdiffs, List.length_append, List.length_cons]
    have hprelt : pre.length < (gaps (uniqueDesc font_sizes)).length := by
      rw [← length_diffs]; omega
    have hMidx : (diffs (uniqueDesc font_sizes)).getD pre.length (0, 0) =
        pyMaxBy Prod.fst x xs := by
      rw [hdiffs, List.getD_eq_getElem?_getD, List.getElem?_append_right (le_refl pre.length)]
      simp
    have hM : pyMaxBy Prod.fst x xs =
        ((gaps (uniqueDesc font_sizes)).getD pre.length 0, pre.length) := by
      rw [← hMidx, diffs_getElem _ _ hprelt]
    have hM2 : (pyMaxBy Prod.fst x xs).2 = pre.length := by rw [hM]
    have hM1 : (pyMaxBy Prod.fst x xs).1 = (gaps (uniqueDesc font_sizes)).getD pre.length 0 := by
      rw [hM]
    refine ⟨(pyMaxBy Prod.fst x xs).2, ?_, ?_, ?_, ?_⟩
    · rw [hM2]
      have := length_gaps (uniqueDesc font_sizes)
      omega
    · exact infer_heading_sizes_eq_of_diffs font_sizes x xs hlt hxs
    · intro j hj
      have hjg : j < (gaps (uniqueDesc font_sizes)).length := by rw [length_gaps]; omega
      have hjd : j < (diffs (uniqueDesc font_sizes)).length := by rw [length_diffs]; exact hjg
      have hmemj : ((gaps (uniqueDesc font_sizes)).getD j 0, j) ∈
          diffs (uniqueDesc font_sizes) := by
        have hgetj := diffs_getElem (uniqueDesc font_sizes) j hjg
        rw [List.getD_eq_getElem?_getD, List.getElem?_eq_getElem hjd, Option.getD_some] at hgetj
        rw [← hgetj]
        exact List.getElem_mem hjd
      have hle := hmax _ (by rw [← hxs]; exact hmemj)
      rw [hM1] at hle
      have hkk : pre.length + 1 < (uniqueDesc font_sizes).length := by
        have := length_gaps (uniqueDesc font_sizes)
        omega
      rw [hM2, ← gaps_getD _ _ hj, ← gaps_getD _ _ hkk]
      exact hle
    · intro j hj
      rw [hM2] at hj
      have hjpre : j < pre.length := hj
      have hjg : j < (gaps (uniqueDesc font_sizes)).length := lt_trans hjpre hprelt
      have hjd : j < (diffs (uniqueDesc font_sizes)).length := by rw [length_diffs]; exact hjg
      have hgetj := diffs_getElem (uniqueDesc font_sizes) j hjg
      rw [List.getD_eq_getElem?_getD, List.getElem?_eq_getElem hjd, Option.getD_some] at hgetj
      have hmempre : ((gaps (uniqueDesc font_sizes)).getD j 0, j) ∈ pre := by
        have hq : (diffs (uniqueDesc font_sizes))[j]? = pre[j]? := by
          rw [hdiffs, List.getElem?_append_left hjpre]
        rw [List.getElem?_eq_getElem hjd, List.getElem?_eq_getElem hjpre] at hq
        rw [← hgetj, Option.some.inj hq]
        exact List.getElem_mem hjpre
      have hlt' := hpre _ hmempre
      rw [hM1] at hlt'
      have hjj : j + 1 < (uniqueDesc font_sizes).length := by
        have := length_gaps (uniqueDesc font_sizes)
        omega
      have hkk : pre.length + 1 < (uniqueDesc font_sizes).length := by
        have := length_gaps (uniqueDesc font_sizes)
        omega
      rw [hM2, ← gaps_getD _ _ hjj, ← gaps_getD _ _ hkk]
      exact hlt'

/-- Witness for `infer_heading_sizes_correct`: the knee-detector example
`{20, 18, 12, 11, 10}` discharges the two-distinct-sizes hypothesis. -/
theorem infer_heading_sizes_correct_witness :
    2 ≤ (uniqueDesc [20, 18, 12, 11, 10]).length ∧
    ∃ idx, idx + 1 < (uniqueDesc [20, 18, 12, 11, 10]).length ∧
      infer_heading_sizes [20, 18, 12, 11, 10] =
        ((uniqueDesc [20, 18, 12, 11, 10]).take (idx + 1)).toFinset ∧
      (∀ j, j + 1 < (uniqueDesc [20, 18, 12, 11, 10]).length →
        (uniqueDesc [20, 18, 12, 11, 10]).getD j 0 -
            (uniqueDesc [20, 18, 12, 11, 10]).getD (j + 1) 0 ≤
          (uniqueDesc [20, 18, 12, 11, 10]).getD idx 0 -
            (uniqueDesc [20, 18, 12, 11, 10]).getD (idx + 1) 0) ∧
      (∀ j, j < idx →
        (uniqueDesc [20, 18, 12, 11, 10]).getD j 0 -
            (uniqueDesc [20, 18, 12, 11, 10]).getD (j + 1) 0 <
          (uniqueDesc [20, 18, 12, 11, 10]).getD idx 0 -
            (uniqueDesc [20, 18, 12, 11, 10]).getD (idx + 1) 0) :=
  ⟨by decide, (infer_heading_sizes_correct [20, 18, 12, 11, 10]).2.2.1 (by decide)⟩

/-! ## The forced floor `min_heading_sizes` (C7) -/

/-- **C7**: with a positive `heading_font_count = k`, the final
heading-size set contains the top `k` distinct sizes (all distinct sizes
when fewer than `k` exist). -/
theorem headingSizesWithFloor_superset_topK (font_sizes : List ℚ) (k : Nat) (hk : 0 < k) :
    ((uniqueDesc font_sizes).take k).toFinset ⊆ headingSizesWithFloor font_sizes (some k) ∧
    ((uniqueDesc font_sizes).length ≤ k →
      font_sizes.toFinset ⊆ headingSizesWithFloor font_sizes (some k)) := by
  have hk0 : ¬ k = 0 := by omega
  have hsome : headingSizesWithFloor font_sizes (some k) =
      infer_heading_sizes font_sizes ∪ ((uniqueDesc font_sizes).take k).toFinset := by
    show (if k = 0 then infer_heading_sizes font_sizes
      else infer_heading_sizes font_sizes ∪ ((uniqueDesc font_sizes).take k).toFinset) = _
    rw [if_neg hk0]
  constructor
  · intro s hs
    rw [hsome]
    exact Finset.mem_union_right _ hs
  · intro hlen s hs
    rw [hsome]
    apply Finset.mem_union_right
    rw [List.take_of_length_le hlen, uniqueDesc_toFinset]
    exact hs

/-- Witness for `headingSizesWithFloor_superset_topK`: a near-uniform
distribution `{10, 9, 8}` where the gap detector alone selects only
`{10}`, forced up to the top three sizes. -/
theorem headingSizesWithFloor_superset_topK_witness :
    (0 < 3 ∧
      ((uniqueDesc [10, 9, 8]).take 3).toFinset ⊆ headingSizesWithFloor [10, 9, 8] (some 3)) ∧
    infer_heading_sizes [10, 9, 8] = {10} ∧
    headingSizesWithFloor [10, 9, 8] (some 3) = {10, 9, 8} :=
  ⟨⟨by decide, (headingSizesWithFloor_superset_topK [10, 9, 8] 3 (by decide)).1⟩,
    by decide, by decide⟩

/-! ## Empty result when no heading qualifies (C8) -/

/-- **C8**: when no block qualifies as a heading candidate, the pipeline
returns the non-error result `{"content": []}`. -/
theorem extract_everything_no_headings (d : Doc) (K : Option Nat)
    (h : headingsOf d K = []) : extract_everything d K = ⟨[]⟩ := by
  unfold extract_everything sortedHeadings
  rw [h]
  rfl

/-- A document with spans but no heading candidate: the only size-10 block
is whitespace-only (stripped text empty), and the size-8 block is plain
lower-case prose below the inferred heading size `{10}`. -/
def noHeadingDoc : Doc :=
  [⟨[⟨0, [⟨[⟨"   ", 10, 20⟩]⟩]⟩, ⟨0, [⟨[⟨"hello world body text", 8, 40⟩]⟩]⟩]⟩]

/-- Witness for `extract_everything_no_headings`: `noHeadingDoc` has spans
but no candidate; the empty document is also covered. -/
theorem extract_everything_no_headings_witness :
    (headingsOf noHeadingDoc none = [] ∧ extract_everything noHeadingDoc none = ⟨[]⟩) ∧
    extract_everything ([] : Doc) none = ⟨[]⟩ :=
  ⟨⟨by decide, extract_everything_no_headings noHeadingDoc none (by decide)⟩,
    extract_everything_no_headings [] none (by decide)⟩

/-! ## What the font-size profiler actually collects (C2) -/

/-- Python `max(spans, key=size)`'s size equals the `max`-fold of the
sizes. -/
theorem pyMaxBy_size_eq (s : Span) (rest : List Span) :
    (pyMaxBy Span.size s rest).size = rest.foldl (fun m y => max m y.size) s.size := by
  induction rest generalizing s with
  | nil => rfl
  | cons y ys ih =>
    show (pyMaxBy Span.size (if s.size < y.size then y else s) ys).size = _
    rw [ih]
    have : (if s.size < y.size then y else s).size = max s.size y.size := by
      by_cases h : s.size < y.size
      · rw [if_pos h, max_eq_right (le_of_lt h)]
      · rw [if_neg h, max_eq_left (le_of_not_lt h)]
    rw [this]
    rfl

/-- The per-line collected size is the maximum span size of the line. -/
theorem lineMaxSize_eq_max? (l : Line) (h : ¬ l.spans.isEmpty) :
    some (lineMaxSize l) = (l.spans.map Span.size).max? := by
  cases hs : l.spans with
  | nil => rw [hs] at h; simp at h
  | cons s rest =>
    unfold lineMaxSize
    rw [hs]
    show some (pyMaxBy Span.size s rest).size = _
    rw [pyMaxBy_size_eq, List.map_cons]
    show _ = some (List.foldl max s.size (rest.map Span.size))
    rw [List.foldl_map]

/-- The lines of the kept blocks of the document, in traversal order. -/
def keptLines (d : Doc) : List Line :=
  (pagesBlocks d).flatMap (fun pb => pb.2.flatMap Block.lines)

/-- Spec-side multiset for the original C2 reading: the font size of every
span of every block of the document, one occurrence per span. -/
def allSpanSizes (d : Doc) : List ℚ :=
  d.flatMap (fun p => p.blocks.flatMap (fun b => (blockSpans b).map Span.size))

/-- **C2** (amended): the multiset handed to the heading-size classifier
has one occurrence per line with at least one span of each kept text
block — the maximum span font size of that line — not one occurrence per
span. -/
theorem collectFontSizes_eq_lineMax (d : Doc) :
    collectFontSizes d =
      (keptLines d).filterMap (fun l => (l.spans.map Span.size).max?) := by
  have hline : ∀ b : Block,
      blockLineSizes b = b.lines.filterMap (fun l => (l.spans.map Span.size).max?) := by
    intro b
    unfold blockLineSizes
    apply List.filterMap_congr
    intro l _
    by_cases h : l.spans.isEmpty
    · rw [if_pos h]
      have : l.spans = [] := by
        cases hs : l.spans with
        | nil => rfl
        | cons a as => rw [hs] at h; simp at h
      rw [this]
      rfl
    · rw [if_neg h, lineMaxSize_eq_max? l h]
  unfold collectFontSizes keptLines
  rw [List.filterMap_flatMap]
  have h1 : ∀ pb : Nat × List Block,
      List.filterMap (fun l => (l.spans.map Span.size).max?) (pb.2.flatMap Block.lines) =
        (pb.2.map blockLineSizes).flatten := by
    intro pb
    rw [List.filterMap_flatMap, List.flatMap_def]
    congr 1
    apply List.map_congr_left
    intro b _
    exact (hline b).symm
  have h2 : (pagesBlocks d).flatMap
      (fun pb =>
        List.filterMap (fun l => (l.spans.map Span.size).max?) (pb.2.flatMap Block.lines)) =
      (pagesBlocks d).flatMap (fun pb => (pb.2.map blockLineSizes).flatten) := by
    rw [List.flatMap_def, List.flatMap_def]
    congr 1
    apply List.map_congr_left
    intro pb _
    exact h1 pb
  rw [h2]
  unfold pagesBlocks
  rw [List.flatMap_map]
  rw [← List.flatMap_def]
  conv_lhs => rw [← List.enum_map_snd d]
  rw [List.flatMap_map]

/-- Shorthand: a one-span line. -/
def oneSpanLine (t : String) (sz y : ℚ) : Line := ⟨[⟨t, sz, y⟩]⟩

/-- Shorthand: a type-0 block with a single one-span line. -/
def simpleBlock (t : String) (sz y : ℚ) : Block := ⟨0, [oneSpanLine t sz y]⟩

/-- A document whose only line holds two spans, of sizes 10 and 12. -/
def twoSpanLineDoc : Doc := [⟨[⟨0, [⟨[⟨"a", 10, 5⟩, ⟨"b", 12, 5⟩]⟩]⟩]⟩]

/-- **C2** counterexample: in `twoSpanLineDoc` the span of size 10 shares
its line with a span of size 12, so the multiset handed to the classifier
is `[12]` and does not contain one occurrence per span. -/
theorem collectFontSizes_not_all_spans :
    collectFontSizes twoSpanLineDoc = [12] ∧
    allSpanSizes twoSpanLineDoc = [10, 12] ∧
    (10 : ℚ) ∈ allSpanSizes twoSpanLineDoc ∧
    (10 : ℚ) ∉ collectFontSizes twoSpanLineDoc := by decide

/-! ## The heading-candidate detector (C5, C6) -/

/-- Inversion for the step-3 body: which blocks produce a candidate, and
which candidate. -/
theorem blockHeading_eq_some {hs : Finset ℚ} {pn : Nat} {b : Block} {hc : HC} :
    blockHeading hs pn b = some hc ↔
      ¬ (blockSpans b).isEmpty ∧ pyStrip (blockText b) ≠ "" ∧
        is_heading hs (blockMaxSize b) (pyStrip (blockText b)) = true ∧
        hc = ⟨pn, blockY0 b, pyStrip (blockText b)⟩ := by
  unfold blockHeading
  by_cases h1 : (blockSpans b).isEmpty
  · rw [if_pos h1]
    simp [h1]
  · rw [if_neg h1]
    show (if pyStrip (blockText b) = "" then none
      else if is_heading hs (blockMaxSize b) (pyStrip (blockText b)) then
        some ⟨pn, blockY0 b, pyStrip (blockText b)⟩ else none) = some hc ↔ _
    by_cases h2 : pyStrip (blockText b) = ""
    · rw [if_pos h2]
      simp [h1, h2]
    · rw [if_neg h2]
      by_cases h3 : is_heading hs (blockMaxSize b) (pyStrip (blockText b)) = true
      · rw [if_pos h3]
        simp [h1, h2, h3, eq_comm]
      · rw [if_neg h3]
        simp [h1, h2, h3]

/-- A block of the collected pages that step 3 maps to a candidate
produces that candidate in `headingsOf`. -/
theorem mem_headingsOf_of (d : Doc) (K : Option Nat) {pn : Nat} {bs : List Block} {b : Block}
    {hc : HC} (hpb : (pn, bs) ∈ pagesBlocks d) (hb : b ∈ bs)
    (h : blockHeading (headingSizesWithFloor (collectFontSizes d) K) pn b = some hc) :
    hc ∈ headingsOf d K := by
  unfold headingsOf
  rw [List.mem_flatten]
  refine ⟨bs.filterMap
    (blockHeading (headingSizesWithFloor (collectFontSizes d) K) pn), ?_, ?_⟩
  · exact List.mem_map.2 ⟨(pn, bs), hpb, rfl⟩
  · exact List.mem_filterMap.2 ⟨b, hb, h⟩

/-- **C6**: a block whose trimmed text matches the numbered-heading
pattern is classified as a heading candidate, regardless of its font
size. -/
theorem numbered_text_is_heading (d : Doc) (K : Option Nat) (pn : Nat) (bs : List Block)
    (b : Block) (hpb : (pn, bs) ∈ pagesBlocks d) (hb : b ∈ bs)
    (hmatch : numHeadingMatch (pyStrip (blockText b)).toList = true) :
    (⟨pn, blockY0 b, pyStrip (blockText b)⟩ : HC) ∈ headingsOf d K := by
  apply mem_headingsOf_of d K hpb hb
  rw [blockHeading_eq_some]
  have htext : pyStrip (blockText b) ≠ "" := by
    intro he
    rw [he] at hmatch
    exact absurd hmatch (by decide)
  have hspans : ¬ (blockSpans b).isEmpty := by
    intro he
    apply htext
    have hnil : blockSpans b = [] := by
      cases hs : blockSpans b with
      | nil => rfl
      | cons a as => rw [hs] at he; simp at he
    unfold blockText
    rw [hnil]
    rfl
  refine ⟨hspans, htext, ?_, rfl⟩
  unfold is_heading
  rw [hmatch]
  simp

/-- The numbered heading block of the C6 witness. -/
def scopeBlock : Block := simpleBlock "1.2 Scope of Work" 8 30

/-- A two-block page whose inferred heading size set is `{14}`, so the
numbered block of size 8 is not heading-sized. -/
def numberedDoc : Doc := [⟨[simpleBlock "BIG TITLE" 14 5, scopeBlock]⟩]

/-- Witness for `numbered_text_is_heading`: `"1.2 Scope of Work"` at the
non-heading size 8 is still a candidate. -/
theorem numbered_text_is_heading_witness :
    numHeadingMatch (pyStrip (blockText scopeBlock)).toList = true ∧
    (⟨1, blockY0 scopeBlock, pyStrip (blockText scopeBlock)⟩ : HC) ∈
      headingsOf numberedDoc none ∧
    blockY0 scopeBlock = 30 ∧ pyStrip (blockText scopeBlock) = "1.2 Scope of Work" ∧
    headingSizesWithFloor (collectFontSizes numberedDoc) none = {14} :=
  ⟨by decide,
    numbered_text_is_heading numberedDoc none 1 [simpleBlock "BIG TITLE" 14 5, scopeBlock]
      scopeBlock (by decide) (by decide) (by decide),
    by decide, by decide, by decide⟩

/-- **C5** (amended): a block whose trimmed text is nonempty, has at most
five whitespace-delimited words and satisfies Python `istitle` semantics
is classified as a heading candidate, regardless of its font size. -/
theorem titlecase_text_is_heading (d : Doc) (K : Option Nat) (pn : Nat) (bs : List Block)
    (b : Block) (hpb : (pn, bs) ∈ pagesBlocks d) (hb : b ∈ bs)
    (hw : (pyWords (pyStrip (blockText b)).toList).length ≤ 5)
    (ht : pyIsTitle (pyStrip (blockText b)).toList = true) :
    (⟨pn, blockY0 b, pyStrip (blockText b)⟩ : HC) ∈ headingsOf d K := by
  apply mem_headingsOf_of d K hpb hb
  rw [blockHeading_eq_some]
  have htext : pyStrip (blockText b) ≠ "" := by
    intro he
    rw [he] at ht
    exact absurd ht (by decide)
  have hspans : ¬ (blockSpans b).isEmpty := by
    intro he
    apply htext
    have hnil : blockSpans b = [] := by
      cases hs : blockSpans b with
      | nil => rfl
      | cons a as => rw [hs] at he; simp at he
    unfold blockText
    rw [hnil]
    rfl
  refine ⟨hspans, htext, ?_, rfl⟩
  unfold is_heading
  rw [ht, decide_eq_true hw]
  simp

/-- The claim's reading of title case: every whitespace-delimited word's
first character is an uppercase letter. -/
def everyWordCapitalized (l : List Char) : Bool :=
  (pyWords l).all (fun w =>
    match w with
    | [] => true
    | c :: _ => c.isUpper)

/-- The C5 counterexample block: `"McDonald"` has its (only) word's first
letter capitalised but fails Python `istitle` (an uppercase letter follows
a cased one). -/
def mcBlock : Block := simpleBlock "McDonald" 8 20

/-- A page whose inferred heading size set is `{12}`, so `mcBlock` (size
8) can only become a heading through the textual heuristics. -/
def titleCaseDoc : Doc := [⟨[mcBlock, simpleBlock "HEADER" 12 5]⟩]

/-- **C5** counterexample: `mcBlock` satisfies the claim's hypotheses
(nonempty trimmed text, one word, first letter capitalised) but is not
classified as a heading candidate. -/
theorem capitalized_block_not_heading :
    (pyStrip (blockText mcBlock) ≠ "" ∧
      (pyWords (pyStrip (blockText mcBlock)).toList).length ≤ 5 ∧
      everyWordCapitalized (pyStrip (blockText mcBlock)).toList = true) ∧
    (1, [mcBlock, simpleBlock "HEADER" 12 5]) ∈ pagesBlocks titleCaseDoc ∧
    mcBlock ∈ [mcBlock, simpleBlock "HEADER" 12 5] ∧
    headingsOf titleCaseDoc none = [⟨1, 5, "HEADER"⟩] ∧
    ∀ hc ∈ headingsOf titleCaseDoc none, hc.text ≠ "McDonald" := by decide

/-- The title-case block of the C5 witness. -/
def titleBlock : Block := simpleBlock "Scope Of Work" 8 40

/-- A two-block page whose inferred heading size set is `{12}`. -/
def titleWitnessDoc : Doc := [⟨[simpleBlock "HEADER" 12 5, titleBlock]⟩]

/-- Witness for `titlecase_text_is_heading`: `"Scope Of Work"` at the
non-heading size 8 is a candidate via the title-case rule. -/
theorem titlecase_text_is_heading_witness :
    ((pyWords (pyStrip (blockText titleBlock)).toList).length ≤ 5 ∧
      pyIsTitle (pyStrip (blockText titleBlock)).toList = true) ∧
    (⟨1, blockY0 titleBlock, pyStrip (blockText titleBlock)⟩ : HC) ∈
      headingsOf titleWitnessDoc none ∧
    pyStrip (blockText titleBlock) = "Scope Of Work" ∧
    headingSizesWithFloor (collectFontSizes titleWitnessDoc) none = {12} :=
  ⟨⟨by decide, by decide⟩,
    titlecase_text_is_heading titleWitnessDoc none 1 [simpleBlock "HEADER" 12 5, titleBlock]
      titleBlock (by decide) (by decide) (by decide) (by decide),
    by decide, by decide⟩

/-! ## Reading-order and segmentation infrastructure (C3, C4, C9, C10) -/

theorem sortedHeadings_sorted (d : Doc) (K : Option Nat) :
    (sortedHeadings d K).Sorted hcLe :=
  List.sorted_insertionSort hcLe (headingsOf d K)

theorem sortedHeadings_perm (d : Doc) (K : Option Nat) :
    (sortedHeadings d K).Perm (headingsOf d K) :=
  List.perm_insertionSort hcLe (headingsOf d K)

theorem sortedFlat_sorted (d : Doc) : (sortedFlat d).Sorted fbLe :=
  List.sorted_insertionSort fbLe (flatBlocksRaw d)

theorem sortedFlat_perm (d : Doc) : (sortedFlat d).Perm (flatBlocksRaw d) :=
  List.perm_insertionSort fbLe (flatBlocksRaw d)

/-- Entries of a `hcLe`-sorted list grow with the index (optional-lookup
form). -/
theorem sorted_getElem?_hcLe {l : List HC} (hs : l.Sorted hcLe) {i j : Nat} (hij : i ≤ j)
    {a b : HC} (ha : l[i]? = some a) (hb : l[j]? = some b) : hcLe a b := by
  obtain ⟨hi, hia⟩ := List.getElem?_eq_some.1 ha
  obtain ⟨hj, hjb⟩ := List.getElem?_eq_some.1 hb
  rcases Nat.eq_or_lt_of_le hij with rfl | hlt
  · have hab : a = b := by rw [← hia, ← hjb]
    rw [hab]
    exact lexLe_refl _
  · have hrel := @List.Sorted.rel_get_of_lt HC hcLe l hs ⟨i, hi⟩ ⟨j, hj⟩ hlt
    rw [List.get_eq_getElem, List.get_eq_getElem] at hrel
    rw [← hia, ← hjb]
    exact hrel

/-- Membership and shape facts for the entries of `flatBlocksRaw`. -/
theorem mem_flatBlocksRaw_props (d : Doc) {x : FB} (hx : x ∈ flatBlocksRaw d) :
    x.2.2 = blockY0 x.2.1 ∧ ¬ (blockSpans x.2.1).isEmpty := by
  unfold flatBlocksRaw at hx
  rw [List.mem_flatten] at hx
  obtain ⟨l, hl, hxl⟩ := hx
  rw [List.mem_map] at hl
  obtain ⟨pb, hpb, rfl⟩ := hl
  rw [List.mem_filterMap] at hxl
  obtain ⟨b, hb, hbx⟩ := hxl
  by_cases h : (blockSpans b).isEmpty
  · rw [if_pos h] at hbx
    exact absurd hbx (by simp)
  · rw [if_neg h] at hbx
    obtain rfl := Option.some.inj hbx
    exact ⟨rfl, h⟩

/-- Step 3 is step 4 composed with the per-block candidate test: the
candidate list is a `filterMap` of the flattened block list. -/
theorem headingsOf_eq_filterMap (d : Doc) (K : Option Nat) :
    headingsOf d K = (flatBlocksRaw d).filterMap
      (fun x => blockHeading (headingSizesWithFloor (collectFontSizes d) K) x.1 x.2.1) := by
  unfold headingsOf flatBlocksRaw
  rw [List.filterMap_flatten, List.map_map]
  show (List.map (fun pb => List.filterMap
      (blockHeading (headingSizesWithFloor (collectFontSizes d) K) pb.1) pb.2)
      (pagesBlocks d)).flatten = _
  congr 1
  apply List.map_congr_left
  intro pb _
  show pb.2.filterMap (blockHeading (headingSizesWithFloor (collectFontSizes d) K) pb.1) =
    List.filterMap (fun x : FB =>
        blockHeading (headingSizesWithFloor (collectFontSizes d) K) x.1 x.2.1)
      (pb.2.filterMap (fun b =>
        if (blockSpans b).isEmpty then none else some ((pb.1, b, blockY0 b) : FB)))
  rw [List.filterMap_filterMap]
  apply List.filterMap_congr
  intro b _
  by_cases h : (blockSpans b).isEmpty
  · rw [if_pos h]
    show blockHeading _ pb.1 b = none
    unfold blockHeading
    rw [if_pos h]
  · rw [if_neg h]
    rfl

/-- A `filterMap` whose hits agree with a key function is a sublist of the
key image. -/
theorem filterMap_key_sublist {α β : Type} (g : α → Option β) (key : α → β) :
    ∀ l : List α, (∀ a ∈ l, ∀ b, g a = some b → b = key a) →
      (l.filterMap g).Sublist (l.map key)
  | [], _ => by simp
  | a :: l, h => by
    rw [List.filterMap_cons, List.map_cons]
    have hrest := filterMap_key_sublist g key l (fun a' ha' => h a' (List.mem_cons_of_mem a ha'))
    cases hg : g a with
    | none => exact hrest.cons (key a)
    | some b =>
      have hb : b = key a := h a (List.mem_cons_self a l) b hg
      rw [hb]
      exact hrest.cons₂ (key a)

/-- The candidates' `(page, y0)` keys form a sublist of the flattened
blocks' keys. -/
theorem headingKeys_sublist (d : Doc) (K : Option Nat) :
    ((headingsOf d K).map hcKey).Sublist ((flatBlocksRaw d).map fbKey) := by
  rw [headingsOf_eq_filterMap, List.map_filterMap]
  apply filterMap_key_sublist
  intro x hx k hk
  rw [Option.map_eq_some'] at hk
  obtain ⟨hc, hbh, rfl⟩ := hk
  rw [blockHeading_eq_some] at hbh
  obtain ⟨-, -, -, rfl⟩ := hbh
  obtain ⟨hy, -⟩ := mem_flatBlocksRaw_props d hx
  show (x.1, blockY0 x.2.1) = (x.1, x.2.2)
  rw [hy]

/-- Pairwise-distinct flat-block keys force pairwise-distinct candidate
keys. -/
theorem headings_pairwise_ne_of_flat (d : Doc) (K : Option Nat)
    (hp : List.Pairwise (fun a b : FB => fbKey a ≠ fbKey b) (flatBlocksRaw d)) :
    List.Pairwise (fun a b : HC => hcKey a ≠ hcKey b) (headingsOf d K) := by
  have h1 : List.Pairwise (fun a b : Nat × ℚ => a ≠ b) ((flatBlocksRaw d).map fbKey) := by
    rw [List.pairwise_map]
    exact hp
  have h2 := List.Pairwise.sublist (headingKeys_sublist d K) h1
  rw [List.pairwise_map] at h2
  exact h2

/-- Every candidate's text is the nonempty stripped text of its block. -/
theorem headingsOf_text_ne (d : Doc) (K : Option Nat) :
    ∀ hc ∈ headingsOf d K, hc.text ≠ "" := by
  intro hc h
  rw [headingsOf_eq_filterMap, List.mem_filterMap] at h
  obtain ⟨x, _, hx⟩ := h
  rw [blockHeading_eq_some] at hx
  obtain ⟨-, hne, -, rfl⟩ := hx
  exact hne

theorem sectionMembers_eq (d : Doc) (K : Option Nat) (i : Nat) (h : HC)
    (hi : (sortedHeadings d K)[i]? = some h) :
    sectionMembers d K i = (sortedFlat d).filter
      (fun x => memberCond (hcKey h) (((sortedHeadings d K)[i + 1]?).map hcKey) (fbKey x)) := by
  unfold sectionMembers
  rw [hi]

theorem sectionMembers_of_none (d : Doc) (K : Option Nat) (i : Nat)
    (hi : (sortedHeadings d K)[i]? = none) : sectionMembers d K i = [] := by
  unfold sectionMembers
  rw [hi]

/-- Membership in section `i` unfolded to the lexicographic boundary
conditions of the claim. -/
theorem mem_sectionMembers_iff (d : Doc) (K : Option Nat) (i : Nat) (h : HC)
    (hi : (sortedHeadings d K)[i]? = some h) (x : FB) :
    x ∈ sectionMembers d K i ↔
      x ∈ flatBlocksRaw d ∧ lexLe (hcKey h) (fbKey x) ∧
        ∀ h2, (sortedHeadings d K)[i + 1]? = some h2 → lexLt (fbKey x) (hcKey h2) := by
  rw [sectionMembers_eq d K i h hi, List.mem_filter, memberCond_iff]
  constructor
  · rintro ⟨hmem, h1, h2⟩
    refine ⟨(List.Perm.mem_iff (sortedFlat_perm d)).1 hmem, h1, ?_⟩
    intro h2' hh2
    exact h2 (hcKey h2') (by rw [hh2]; rfl)
  · rintro ⟨hmem, h1, h2⟩
    refine ⟨(List.Perm.mem_iff (sortedFlat_perm d)).2 hmem, h1, ?_⟩
    intro e' he'
    rw [Option.map_eq_some'] at he'
    obtain ⟨h2', hh2, rfl⟩ := he'
    exact h2 h2' hh2

/-- **C9** (amended): the owning headings of the output sections are
non-decreasing in `(page, y0)` under lexicographic order; they are
strictly increasing whenever the collected blocks' `(page, y0)` keys are
pairwise distinct. -/
theorem sections_strictly_ordered (d : Doc) (K : Option Nat) :
    List.Pairwise hcLe (sortedHeadings d K) ∧
    (List.Pairwise (fun a b : FB => fbKey a ≠ fbKey b) (flatBlocksRaw d) →
      List.Pairwise (fun a b : HC => lexLt (hcKey a) (hcKey b)) (sortedHeadings d K)) := by
  refine ⟨sortedHeadings_sorted d K, ?_⟩
  intro hp
  have hne := headings_pairwise_ne_of_flat d K hp
  have hsym : ∀ {a b : HC}, hcKey a ≠ hcKey b → hcKey b ≠ hcKey a := fun h he => h he.symm
  have hne' : List.Pairwise (fun a b : HC => hcKey a ≠ hcKey b) (sortedHeadings d K) :=
    ((sortedHeadings_perm d K).pairwise_iff hsym).2 hne
  have hand := List.Pairwise.and (sortedHeadings_sorted d K) hne'
  exact hand.imp (fun hab => lexLt_of_lexLe_of_ne hab.1 hab.2)

/-- The ALPHA block of the tied-position document. -/
def alphaBlock : Block := simpleBlock "ALPHA" 12 50

/-- The BETA block of the tied-position document. -/
def betaBlock : Block := simpleBlock "BETA" 12 50

/-- Two heading blocks at the identical position `(1, 50)`. -/
def tieDoc : Doc := [⟨[alphaBlock, betaBlock]⟩]

/-- **C9** counterexample: with two headings at the same `(page, y0)` the
output still has two sections but their owning headings are not strictly
increasing. -/
theorem sections_not_strictly_increasing :
    (sortedHeadings tieDoc none).map hcKey = [(1, 50), (1, 50)] ∧
    (extract_everything tieDoc none).content.length = 2 ∧
    ¬ List.Pairwise (fun a b : HC => lexLt (hcKey a) (hcKey b)) (sortedHeadings tieDoc none) := by
  decide

/-- Witness for `sections_strictly_ordered`: `numberedDoc` has pairwise
distinct block keys, so its heading order is strictly increasing. -/
theorem sections_strictly_ordered_witness :
    List.Pairwise (fun a b : FB => fbKey a ≠ fbKey b) (flatBlocksRaw numberedDoc) ∧
    List.Pairwise (fun a b : HC => lexLt (hcKey a) (hcKey b))
      (sortedHeadings numberedDoc none) :=
  ⟨by decide, (sections_strictly_ordered numberedDoc none).2 (by decide)⟩

/-- **C10**: one output section per detected heading candidate, in sorted
candidate order, each titled by the candidate's trimmed block text, which
is never empty. -/
theorem extract_one_section_per_candidate (d : Doc) (K : Option Nat) :
    (extract_everything d K).content.map SectionOut.title =
      (sortedHeadings d K).map HC.text ∧
    (extract_everything d K).content.length = (headingsOf d K).length ∧
    (sortedHeadings d K).Perm (headingsOf d K) ∧
    ∀ s ∈ (extract_everything d K).content, s.title ≠ "" := by
  have hcontent : (extract_everything d K).content.map SectionOut.title =
      (sortedHeadings d K).enum.map (fun ih => ih.2.text) := by
    show ((sortedHeadings d K).enum.map _).map SectionOut.title = _
    rw [List.map_map]
    rfl
  have henum : (sortedHeadings d K).enum.map (fun ih : Nat × HC => ih.2.text) =
      (sortedHeadings d K).map HC.text := by
    have hfun : (fun ih : Nat × HC => ih.2.text) = (HC.text ∘ Prod.snd) := rfl
    rw [hfun, ← List.map_map, List.enum_map_snd]
  refine ⟨hcontent.trans henum, ?_, sortedHeadings_perm d K, ?_⟩
  · show ((sortedHeadings d K).enum.map _).length = _
    rw [List.length_map, List.enum_length]
    exact (sortedHeadings_perm d K).length_eq
  · intro s hs
    have hmem : s.title ∈ (extract_everything d K).content.map SectionOut.title :=
      List.mem_map_of_mem SectionOut.title hs
    rw [hcontent.trans henum, List.mem_map] at hmem
    obtain ⟨hc, hhc, htitle⟩ := hmem
    rw [← htitle]
    exact headingsOf_text_ne d K hc ((sortedHeadings_perm d K).mem_iff.1 hhc)

/-- Witness for `extract_one_section_per_candidate` at `numberedDoc`. -/
theorem extract_one_section_per_candidate_witness :
    (⟨"BIG TITLE", "BIG TITLE"⟩ : SectionOut) ∈ (extract_everything numberedDoc none).content ∧
    (⟨"BIG TITLE", "BIG TITLE"⟩ : SectionOut).title ≠ "" :=
  ⟨by decide, (extract_one_section_per_candidate numberedDoc none).2.2.2 _ (by decide)⟩

/-- A block in some section forces a heading at that index. -/
theorem sectionMembers_some_of_mem {d : Doc} {K : Option Nat} {i : Nat} {x : FB}
    (hx : x ∈ sectionMembers d K i) : ∃ h, (sortedHeadings d K)[i]? = some h := by
  cases hi : (sortedHeadings d K)[i]? with
  | none =>
    rw [sectionMembers_of_none d K i hi] at hx
    exact absurd hx (List.not_mem_nil x)
  | some h => exact ⟨h, rfl⟩

/-- No block is in two different sections: the boundary intervals of the
sorted headings are pairwise disjoint. -/
theorem sectionMembers_unique (d : Doc) (K : Option Nat) (x : FB) {i j : Nat}
    (hxi : x ∈ sectionMembers d K i) (hxj : x ∈ sectionMembers d K j) : i = j := by
  have key : ∀ a b : Nat, a < b →
      x ∈ sectionMembers d K a → x ∈ sectionMembers d K b → False := by
    intro a b hab hxa hxb
    obtain ⟨ha, hia⟩ := sectionMembers_some_of_mem hxa
    obtain ⟨hb, hib⟩ := sectionMembers_some_of_mem hxb
    have hblen : b < (sortedHeadings d K).length := (List.getElem?_eq_some.1 hib).1
    have ha1lt : a + 1 < (sortedHeadings d K).length :=
      lt_of_le_of_lt (Nat.succ_le_of_lt hab) hblen
    have hh' : (sortedHeadings d K)[a + 1]? =
        some ((sortedHeadings d K).get ⟨a + 1, ha1lt⟩) := by
      rw [List.getElem?_eq_getElem ha1lt]
      rfl
    have hxlt := ((mem_sectionMembers_iff d K a ha hia x).1 hxa).2.2 _ hh'
    have hble := ((mem_sectionMembers_iff d K b hb hib x).1 hxb).2.1
    have hle : hcLe ((sortedHeadings d K).get ⟨a + 1, ha1lt⟩) hb :=
      sorted_getElem?_hcLe (sortedHeadings_sorted d K) (Nat.succ_le_of_lt hab) hh' hib
    have : lexLt (fbKey x) (fbKey x) :=
      lexLt_of_lexLt_of_lexLe hxlt (lexLe_trans hle hble)
    exact lexLt_irrefl _ this
  rcases Nat.lt_trichotomy i j with h | h | h
  · exact (key i j h hxi hxj).elim
  · exact h
  · exact (key j i h hxj hxi).elim

/-- A block at or after the first heading's start belongs to some
section: the last index whose start is at or below the block works. -/
theorem sectionMembers_exists (d : Doc) (K : Option Nat) (x : FB) (hx : x ∈ flatBlocksRaw d)
    (h0 : HC) (hh0 : (sortedHeadings d K)[0]? = some h0) (hge : lexLe (hcKey h0) (fbKey x)) :
    ∃ i, x ∈ sectionMembers d K i := by
  classical
  have hn0 : 0 < (sortedHeadings d K).length := (List.getElem?_eq_some.1 hh0).1
  set P : Nat → Prop :=
    fun i => ∃ h, (sortedHeadings d K)[i]? = some h ∧ lexLe (hcKey h) (fbKey x) with hPdef
  have hP0 : P 0 := ⟨h0, hh0, hge⟩
  set i0 := Nat.findGreatest P ((sortedHeadings d K).length - 1) with hi0
  have hPi0 : P i0 := Nat.findGreatest_spec (Nat.zero_le _) hP0
  obtain ⟨h, hih, hxh⟩ := hPi0
  refine ⟨i0, (mem_sectionMembers_iff d K i0 h hih x).2 ⟨hx, hxh, ?_⟩⟩
  intro h2 hh2
  have hlt : i0 + 1 < (sortedHeadings d K).length := (List.getElem?_eq_some.1 hh2).1
  have hnP : ¬ P (i0 + 1) := by
    apply Nat.findGreatest_is_greatest
    · exact Nat.lt_succ_of_le (le_refl _)
    · omega
  have hnle : ¬ lexLe (hcKey h2) (fbKey x) := fun hc => hnP ⟨h2, hh2, hc⟩
  exact not_lexLe_iff_lexLt.1 hnle

/-- A block strictly before the first heading's start belongs to no
section. -/
theorem sectionMembers_none_of_lt (d : Doc) (K : Option Nat) (x : FB) (h0 : HC)
    (hh0 : (sortedHeadings d K)[0]? = some h0) (hlt : lexLt (fbKey x) (hcKey h0)) :
    ∀ i, x ∉ sectionMembers d K i := by
  intro i hx
  obtain ⟨h, hih⟩ := sectionMembers_some_of_mem hx
  have hle := ((mem_sectionMembers_iff d K i h hih x).1 hx).2.1
  have hle0 : hcLe h0 h :=
    sorted_getElem?_hcLe (sortedHeadings_sorted d K) (Nat.zero_le i) hh0 hih
  exact lexLt_irrefl _ (lexLt_of_lexLt_of_lexLe hlt (lexLe_trans hle0 hle))

/-- **C4** (amended): a block never belongs to two sections; when a first
heading exists, a block at or after its start belongs to exactly one
section, and a block strictly before it belongs to none. -/
theorem block_in_exactly_one_section (d : Doc) (K : Option Nat) (x : FB)
    (hx : x ∈ flatBlocksRaw d) :
    (∀ i j, x ∈ sectionMembers d K i → x ∈ sectionMembers d K j → i = j) ∧
    (∀ h0, (sortedHeadings d K)[0]? = some h0 →
      (lexLe (hcKey h0) (fbKey x) → ∃! i, x ∈ sectionMembers d K i) ∧
      (lexLt (fbKey x) (hcKey h0) → ∀ i, x ∉ sectionMembers d K i)) := by
  refine ⟨fun i j hi hj => sectionMembers_unique d K x hi hj, ?_⟩
  intro h0 hh0
  constructor
  · intro hge
    obtain ⟨i, hi⟩ := sectionMembers_exists d K x hx h0 hh0 hge
    exact ⟨i, hi, fun j hj => sectionMembers_unique d K x hj hi⟩
  · exact sectionMembers_none_of_lt d K x h0 hh0

/-- The body block above the first heading of `preHeadingDoc`. -/
def preBlock : Block := simpleBlock "hello world text here" 10 10

/-- A page with a body block above its only heading. -/
def preHeadingDoc : Doc := [⟨[preBlock, simpleBlock "HEADING" 20 50]⟩]

/-- **C4** counterexample: `preHeadingDoc` has a nonempty section list,
yet the block above the first heading belongs to no section. -/
theorem block_before_first_heading_in_no_section :
    (extract_everything preHeadingDoc none).content ≠ [] ∧
    (1, preBlock, (10 : ℚ)) ∈ flatBlocksRaw preHeadingDoc ∧
    ∀ i, (1, preBlock, (10 : ℚ)) ∉ sectionMembers preHeadingDoc none i := by
  refine ⟨by decide, by decide, ?_⟩
  intro i
  cases i with
  | zero => decide
  | succ n =>
    intro hx
    obtain ⟨h, hih⟩ := sectionMembers_some_of_mem hx
    have hlt := (List.getElem?_eq_some.1 hih).1
    have hlen : (sortedHeadings preHeadingDoc none).length = 1 := by decide
    omega

/-- Witness for `block_in_exactly_one_section`: the heading block of
`preHeadingDoc` is in exactly one section. -/
theorem block_in_exactly_one_section_witness :
    ((1, simpleBlock "HEADING" 20 50, (50 : ℚ)) ∈ flatBlocksRaw preHeadingDoc) ∧
    (sortedHeadings preHeadingDoc none)[0]? = some ⟨1, 50, "HEADING"⟩ ∧
    ∃! i, (1, simpleBlock "HEADING" 20 50, (50 : ℚ)) ∈ sectionMembers preHeadingDoc none i :=
  ⟨by decide, by decide,
    ((block_in_exactly_one_section preHeadingDoc none
        (1, simpleBlock "HEADING" 20 50, (50 : ℚ)) (by decide)).2
      ⟨1, 50, "HEADING"⟩ (by decide)).1 (by decide)⟩

/-- Under pairwise-distinct block keys, a member whose key equals the
section's start is the first member. -/
theorem sectionMembers_head (d : Doc) (K : Option Nat) (i : Nat) (h : HC)
    (hi : (sortedHeadings d K)[i]? = some h)
    (hp : List.Pairwise (fun a b : FB => fbKey a ≠ fbKey b) (flatBlocksRaw d))
    {x : FB} (hx : x ∈ sectionMembers d K i) (hkey : fbKey x = hcKey h) :
    (sectionMembers d K i).head? = some x := by
  have hsub : (sectionMembers d K i).Sublist (sortedFlat d) := by
    rw [sectionMembers_eq d K i h hi]
    exact List.filter_sublist _
  have hsorted : (sectionMembers d K i).Pairwise fbLe :=
    List.Pairwise.sublist hsub (sortedFlat_sorted d)
  have hpw : (sortedFlat d).Pairwise (fun a b : FB => fbKey a ≠ fbKey b) :=
    ((sortedFlat_perm d).pairwise_iff (fun hne he => hne he.symm)).2 hp
  have hne : (sectionMembers d K i).Pairwise (fun a b : FB => fbKey a ≠ fbKey b) :=
    List.Pairwise.sublist hsub hpw
  have hmemle : ∀ m ∈ sectionMembers d K i, lexLe (hcKey h) (fbKey m) := by
    intro m hm
    exact ((mem_sectionMembers_iff d K i h hi m).1 hm).2.1
  cases hsm : sectionMembers d K i with
  | nil =>
    rw [hsm] at hx
    exact absurd hx (List.not_mem_nil x)
  | cons m rest =>
    rw [hsm] at hx hsorted hne hmemle
    rcases List.mem_cons.1 hx with rfl | hxrest
    · rfl
    · have h1 : fbLe m x := (List.pairwise_cons.1 hsorted).1 x hxrest
      have h2 : lexLe (hcKey h) (fbKey m) := hmemle m (List.mem_cons_self m rest)
      have h3 : fbKey m = fbKey x := by
        apply lexLe_antisymm h1
        rw [hkey]
        exact h2
      exact absurd h3 ((List.pairwise_cons.1 hne).1 x hxrest)

/-- **C3** (amended): membership in section `i` is exactly the
lexicographic boundary condition `start_i ≤ (page, y0) < start_of i+1`
(no upper bound for the last heading); the block that generated heading
`i` occurs among the flattened blocks with the heading's key and trimmed
text, and — when the collected blocks' `(page, y0)` keys are pairwise
distinct — it is a member of its own section and its rendered text is the
first entry of the section's body texts. -/
theorem section_membership_and_heading_block (d : Doc) (K : Option Nat) (i : Nat) (h : HC)
    (hi : (sortedHeadings d K)[i]? = some h) :
    (∀ x ∈ flatBlocksRaw d,
      (x ∈ sectionMembers d K i ↔
        lexLe (hcKey h) (fbKey x) ∧
          ∀ h2, (sortedHeadings d K)[i + 1]? = some h2 → lexLt (fbKey x) (hcKey h2))) ∧
    ∃ x ∈ flatBlocksRaw d,
      fbKey x = hcKey h ∧ pyStrip (blockText x.2.1) = h.text ∧
      (List.Pairwise (fun a b : FB => fbKey a ≠ fbKey b) (flatBlocksRaw d) →
        x ∈ sectionMembers d K i ∧
        ((sectionMembers d K i).map (fun y => renderBlock y.2.1)).head? =
          some (renderBlock x.2.1)) := by
  constructor
  · intro x hx
    rw [mem_sectionMembers_iff d K i h hi x]
    exact ⟨fun hm => hm.2, fun hm => ⟨hx, hm⟩⟩
  · have hmem : h ∈ headingsOf d K :=
      (sortedHeadings_perm d K).mem_iff.1 (List.getElem?_mem hi)
    rw [headingsOf_eq_filterMap, List.mem_filterMap] at hmem
    obtain ⟨x, hxflat, hbh⟩ := hmem
    rw [blockHeading_eq_some] at hbh
    obtain ⟨hsp, hnetext, hish, hhc⟩ := hbh
    obtain ⟨hy, -⟩ := mem_flatBlocksRaw_props d hxflat
    have hkey : fbKey x = hcKey h := by
      rw [hhc]
      show (x.1, x.2.2) = (x.1, blockY0 x.2.1)
      rw [hy]
    refine ⟨x, hxflat, hkey, by rw [hhc], ?_⟩
    intro hp
    have hxmem : x ∈ sectionMembers d K i := by
      rw [mem_sectionMembers_iff d K i h hi x]
      refine ⟨hxflat, by rw [hkey]; exact lexLe_refl _, ?_⟩
      intro h2 hh2
      have hle : hcLe h h2 :=
        sorted_getElem?_hcLe (sortedHeadings_sorted d K) (Nat.le_succ i) hi hh2
      have hnekeys : hcKey h ≠ hcKey h2 := by
        have hne' : List.Pairwise (fun a b : HC => hcKey a ≠ hcKey b) (sortedHeadings d K) :=
          ((sortedHeadings_perm d K).pairwise_iff (fun hne he => hne he.symm)).2
            (headings_pairwise_ne_of_flat d K hp)
        rw [List.pairwise_iff_getElem] at hne'
        obtain ⟨hilt, hieq⟩ := List.getElem?_eq_some.1 hi
        obtain ⟨hjlt, hjeq⟩ := List.getElem?_eq_some.1 hh2
        have hij := hne' i (i + 1) hilt hjlt (Nat.lt_succ_self i)
        rw [hieq, hjeq] at hij
        exact hij
      rw [hkey]
      exact lexLt_of_lexLe_of_ne hle hnekeys
    refine ⟨hxmem, ?_⟩
    rw [List.head?_map, sectionMembers_head d K i h hi hp hxmem hkey]
    rfl

/-- **C3** counterexample: in `tieDoc` both headings start at `(1, 50)`,
section 0 has no members at all, so the block that generated heading 0 is
not a member of its own section and its text is absent from that
section's body. -/
theorem heading_block_not_in_own_section :
    (sortedHeadings tieDoc none)[0]? = some ⟨1, 50, "ALPHA"⟩ ∧
    pyStrip (blockText alphaBlock) = "ALPHA" ∧
    (1, alphaBlock, (50 : ℚ)) ∈ flatBlocksRaw tieDoc ∧
    sectionMembers tieDoc none 0 = [] ∧
    (extract_everything tieDoc none).content =
      [⟨"ALPHA", ""⟩, ⟨"BETA", "ALPHA\nBETA"⟩] := by decide

/-- Witness for `section_membership_and_heading_block` at `numberedDoc`,
section 0. -/
theorem section_membership_and_heading_block_witness :
    (sortedHeadings numberedDoc none)[0]? = some ⟨1, 5, "BIG TITLE"⟩ ∧
    ((∀ x ∈ flatBlocksRaw numberedDoc,
      (x ∈ sectionMembers numberedDoc none 0 ↔
        lexLe (hcKey ⟨1, 5, "BIG TITLE"⟩) (fbKey x) ∧
          ∀ h2, (sortedHeadings numberedDoc none)[0 + 1]? = some h2 →
            lexLt (fbKey x) (hcKey h2))) ∧
    ∃ x ∈ flatBlocksRaw numberedDoc,
      fbKey x = hcKey ⟨1, 5, "BIG TITLE"⟩ ∧
      pyStrip (blockText x.2.1) = HC.text ⟨1, 5, "BIG TITLE"⟩ ∧
      (List.Pairwise (fun a b : FB => fbKey a ≠ fbKey b) (flatBlocksRaw numberedDoc) →
        x ∈ sectionMembers numberedDoc none 0 ∧
        ((sectionMembers numberedDoc none 0).map (fun y => renderBlock y.2.1)).head? =
          some (renderBlock x.2.1))) :=
  ⟨by decide,
    section_membership_and_heading_block numberedDoc none 0 ⟨1, 5, "BIG TITLE"⟩ (by decide)⟩

end PdfParser
